import Mathlib

/-!
Verification of the wsl-secret-service daemon against its specification.

The development shallowly embeds the Go sources:
  * `internal/store/store.go` — the metadata store (collections, items, aliases,
    search, seeding);
  * `internal/service/types.go` — the bus-path codec;
  * `internal/service/crypto.go` — PKCS#7 padding, the CBC transport layer and
    the DH private-exponent reduction;
  * the service-level methods `Service.SetAlias`, `Service.CreateCollection`,
    `Collection.Delete`, `Collection.CreateItem` (service.go / collection.go);
  * the vault bridge `Bridge.Set` (wincred bridge).

Go maps are embedded as association lists where the first binding of a key
wins; reading an absent key yields the zero value `""`, exactly as Go's map
indexing does.  Strings are treated as their character sequences (all the
constants involved are ASCII, where Go's byte indexing and character indexing
agree).  Timestamps are passed in explicitly (`now`) in place of
`time.Now()`, and randomness (IVs, fresh key bytes) is a parameter.
-/

namespace WslSecretService

/-- Association-list lookup: first binding of `k` wins (Go maps have unique
keys, so this is map lookup). -/
def assocGet? {α : Type} : List (String × α) → String → Option α
  | [], _ => none
  | (k', v) :: rest, k => if k' = k then some v else assocGet? rest k

/-- Map update `m[k] = v`: replace the first binding of `k`, or append. -/
def assocSet {α : Type} : List (String × α) → String → α → List (String × α)
  | [], k, v => [(k, v)]
  | (k', v') :: rest, k, v =>
      if k' = k then (k, v) :: rest else (k', v') :: assocSet rest k v

/-- Map deletion `delete(m, k)`: drop every binding of `k`. -/
def assocDel {α : Type} : List (String × α) → String → List (String × α)
  | [], _ => []
  | (k', v) :: rest, k =>
      if k' = k then assocDel rest k else (k', v) :: assocDel rest k

/-- The alias sweep of `Store.DeleteCollection`: drop every alias whose
target is the deleted collection. -/
def dropAliasesTo : List (String × String) → String → List (String × String)
  | [], _ => []
  | (a, t) :: rest, name =>
      if t = name then dropAliasesTo rest name else (a, t) :: dropAliasesTo rest name

/-- A Go `map[string]string` of item attributes. -/
abbrev AttrMap := List (String × String)

/-- Go map read `m[k]` on a string-valued map: the zero value `""` when the
key is absent. -/
def mapGet (m : AttrMap) (k : String) : String :=
  (assocGet? m k).getD ""

/-- `ItemMeta` from store.go: metadata of one secret item. -/
structure ItemMeta where
  label : String
  attributes : AttrMap
  created : Nat
  modified : Nat
  contentType : String
deriving DecidableEq, Repr

/-- `CollectionMeta` from store.go: metadata of a collection of items. -/
structure CollectionMeta where
  label : String
  created : Nat
  modified : Nat
  items : List (String × ItemMeta)
deriving DecidableEq, Repr

/-- `storeData` from store.go: the persisted top-level document. -/
structure StoreData where
  version : Nat
  collections : List (String × CollectionMeta)
  aliases : List (String × String)
deriving DecidableEq, Repr

/-- `ItemRef` from store.go: an item named by collection and UUID. -/
structure ItemRef where
  collection : String
  uuid : String
deriving DecidableEq, Repr

/-- The in-memory document a `Store` starts from when `metadata.json` does not
exist (see `Store.New` in store.go). -/
def emptyStoreData : StoreData :=
  { version := 1, collections := [], aliases := [] }

/-- The seeding step of `store.New`: if the `"login"` collection is absent
after load, create it with label `"Login"` and set the `"default"` alias.
`now` stands for `time.Now().Unix()`. -/
def storeNew (loaded : StoreData) (now : Nat) : StoreData :=
  if (assocGet? loaded.collections "login").isSome then loaded
  else
    { loaded with
        collections := (assocSet loaded.collections "login"
          { label := "Login", created := now, modified := now, items := [] }),
        aliases := assocSet loaded.aliases "default" "login" }

/-- `Store.CreateCollection`: error when the name exists, otherwise insert. -/
def storeCreateCollection (s : StoreData) (name label : String) (now : Nat) :
    Except String StoreData :=
  if (assocGet? s.collections name).isSome then
    .error "collection already exists"
  else
    .ok { s with collections := (assocSet s.collections name
            { label := label, created := now, modified := now, items := [] }) }

/-- `Store.DeleteCollection`: remove the collection and every alias that
targets it; error when the name is absent. -/
def storeDeleteCollection (s : StoreData) (name : String) :
    Except String StoreData :=
  if (assocGet? s.collections name).isSome then
    .ok { s with collections := assocDel s.collections name,
                 aliases := dropAliasesTo s.aliases name }
  else
    .error "collection not found"

/-- `Store.GetAlias`: resolves to `""` when the alias is absent. -/
def storeGetAlias (s : StoreData) (name : String) : String :=
  mapGet s.aliases name

/-- `Store.SetAlias`: `collection = ""` removes the alias; otherwise the
target collection must exist. -/
def storeSetAlias (s : StoreData) (name collection : String) :
    Except String StoreData :=
  if collection = "" then
    .ok { s with aliases := assocDel s.aliases name }
  else if (assocGet? s.collections collection).isSome then
    .ok { s with aliases := assocSet s.aliases name collection }
  else
    .error "collection not found"

/-- `Store.CreateItem`: default `created` to `now` when unset, stamp
`modified` on the item and its collection. -/
def storeCreateItem (s : StoreData) (collection uuid : String)
    (meta : ItemMeta) (now : Nat) : Except String StoreData :=
  match assocGet? s.collections collection with
  | none => .error "collection not found"
  | some c =>
      .ok { s with collections := (assocSet s.collections collection
              { c with
                items := assocSet c.items uuid
                  { meta with
                    created := if meta.created = 0 then now else meta.created,
                    modified := now },
                modified := now }) }

/-- `Store.UpdateItem`: replace the metadata of an existing item, stamping
`modified` on the item and its collection. -/
def storeUpdateItem (s : StoreData) (collection uuid : String)
    (meta : ItemMeta) (now : Nat) : Except String StoreData :=
  match assocGet? s.collections collection with
  | none => .error "collection not found"
  | some c =>
      if (assocGet? c.items uuid).isSome then
        .ok { s with collections := (assocSet s.collections collection
                { c with items := assocSet c.items uuid { meta with modified := now },
                         modified := now }) }
      else .error "item not found"

/-- `Store.DeleteItem`: remove an existing item, stamping the collection. -/
def storeDeleteItem (s : StoreData) (collection uuid : String) (now : Nat) :
    Except String StoreData :=
  match assocGet? s.collections collection with
  | none => .error "collection not found"
  | some c =>
      if (assocGet? c.items uuid).isSome then
        .ok { s with collections := (assocSet s.collections collection
                { c with items := assocDel c.items uuid, modified := now }) }
      else .error "item not found"

/-- `matchesAll` from store.go: every wanted pair `(k,v)` must satisfy
`itemAttrs[k] == v`, with the Go zero-value read on a missing key. -/
def matchesAll (itemAttrs want : AttrMap) : Bool :=
  want.all (fun kv => mapGet itemAttrs kv.1 == kv.2)

/-- `Store.SearchItems`: all items, in every collection, whose attributes
satisfy `matchesAll`. -/
def searchItems (s : StoreData) (attrs : AttrMap) : List ItemRef :=
  s.collections.flatMap fun ce =>
    (ce.2.items.filter (fun ie => matchesAll ie.2.attributes attrs)).map
      fun ie => { collection := ce.1, uuid := ie.1 }

/-- `Store.SearchItemsInCollection`: the same filter restricted to one
collection; an unknown collection yields no results. -/
def searchItemsInCollection (s : StoreData) (collection : String)
    (attrs : AttrMap) : List ItemRef :=
  match assocGet? s.collections collection with
  | none => []
  | some c =>
      (c.items.filter (fun ie => matchesAll ie.2.attributes attrs)).map
        fun ie => { collection := collection, uuid := ie.1 }

/-- Query containment exactly as the specification words it: every key of the
query is present in the item attributes and bound to the same value.  Written
from the spec, to be compared with `matchesAll`. -/
def specPointwiseContained (q a : AttrMap) : Bool :=
  q.all (fun kv => assocGet? a kv.1 == some kv.2)

/-- A store holding one item with an empty attribute map, exercising the
search semantics on a query that names an absent key. -/
def searchExampleStore : StoreData :=
  { version := 1,
    collections := [("login",
      { label := "Login", created := 0, modified := 0,
        items := [("u1",
          { label := "", attributes := [], created := 0, modified := 0,
            contentType := "text/plain; charset=utf8" })] })],
    aliases := [("default", "login")] }

/-! ## Bus-path codec (internal/service/types.go) -/

/-- `CollectionPathPrefix` from types.go. -/
def collectionPathPrefix : String := "/org/freedesktop/secrets/collection/"

/-- The character substitution of `strings.ReplaceAll(uuid, "-", "_")`. -/
def dashToUnderscore (c : Char) : Char := if c = '-' then '_' else c

/-- The reverse substitution `strings.ReplaceAll(rest, "_", "-")`. -/
def underscoreToDash (c : Char) : Char := if c = '_' then '-' else c

/-- `ItemPath` from types.go: collection prefix, collection name, `/`, and the
uuid with hyphens replaced by underscores. -/
def itemPath (collection uuid : String) : String :=
  collectionPathPrefix ++ collection ++ "/" ++ String.mk (uuid.toList.map dashToUnderscore)

/-- `CollectionNameFromPath` from types.go.  The source checks only that the
path is LONGER than the prefix, then slices the prefix length off and returns
up to the next `/`; it never verifies that the path actually starts with the
prefix. -/
def collectionNameFromPath (p : String) : String :=
  if p.length ≤ collectionPathPrefix.length then ""
  else
    String.mk ((p.toList.drop collectionPathPrefix.length).takeWhile (fun c => c ≠ '/'))

/-- `ItemUUIDFromPath` from types.go: slice the prefix length off, split at the
first `/`, map underscores in the right half back to hyphens; `("", "")` when
the path is not longer than the prefix or has no `/` after it. -/
def itemUUIDFromPath (p : String) : String × String :=
  if p.length ≤ collectionPathPrefix.length then ("", "")
  else if ((p.toList.drop collectionPathPrefix.length).dropWhile
      (fun c => c ≠ '/')).isEmpty then ("", "")
  else
    (String.mk ((p.toList.drop collectionPathPrefix.length).takeWhile (fun c => c ≠ '/')),
     String.mk (((p.toList.drop collectionPathPrefix.length).dropWhile
       (fun c => c ≠ '/')).tail.map underscoreToDash))

/-- Whether a path begins with the collection prefix (the property the spec
claims the parsers check). -/
def startsWithCollectionPath (p : String) : Bool :=
  p.toList.take collectionPathPrefix.length == collectionPathPrefix.toList

/-- The collection naming rule: non-empty, lowercase alphanumerics only
(`collectionSlug` in service.go produces exactly such names). -/
def isCollectionName (s : String) : Bool :=
  s.length ≠ 0 && s.toList.all (fun c => ('a' ≤ c && c ≤ 'z') || ('0' ≤ c && c ≤ '9'))

/-- A lowercase hexadecimal digit. -/
def isLowerHexDigit (c : Char) : Bool :=
  ('0' ≤ c && c ≤ '9') || ('a' ≤ c && c ≤ 'f')

/-- Canonical hyphenated lowercase UUID form: 36 characters, hyphens exactly
at positions 8, 13, 18 and 23, lowercase hex digits elsewhere. -/
def isCanonicalUUID (s : String) : Bool :=
  s.toList.length = 36 &&
    (List.range 36).all (fun i =>
      if i = 8 || i = 13 || i = 18 || i = 23 then s.toList.getD i ' ' = '-'
      else isLowerHexDigit (s.toList.getD i ' '))

/-! ## Crypto primitives (internal/service/crypto.go)

The AES block cipher itself is Go'''s `crypto/aes`, and CBC chaining is
`crypto/cipher` — both outside this repository.  The block cipher is taken as
an abstract parameter `encB`/`decB` (the pair `aes.NewCipher(key).Encrypt` /
`.Decrypt`), and CBC is written out by its standard equations
`c_i = E(p_i ⊕ c_{i-1})`, `c_0 = iv`, which is what `cipher.NewCBCEncrypter`
computes.  The padding functions and the length guard are this repository'''s
`pkcs7Pad` / `pkcs7Unpad` / `aesDecrypt`, translated clause for clause.
Bytes are natural numbers; every byte the padding logic writes or inspects is
in `1..16`, where Nat and byte arithmetic agree. -/

/-- A byte string. -/
abbrev Bytes := List Nat

/-- `aes.BlockSize`. -/
def aesBlockSize : Nat := 16

/-- `pkcs7Pad` from crypto.go: append `blockSize - len(data) % blockSize`
copies of that count (always between 1 and `blockSize`). -/
def pkcs7Pad (data : Bytes) (blockSize : Nat) : Bytes :=
  let padding := blockSize - data.length % blockSize
  data ++ List.replicate padding padding

/-- `pkcs7Unpad` from crypto.go: reject the empty buffer, a final byte of `0`
or above `aes.BlockSize` or above the buffer length, and any byte of the
padding region that differs from the pad length; otherwise strip the pad. -/
def pkcs7Unpad (data : Bytes) : Except String Bytes :=
  if data.length = 0 then .error "empty padded data"
  else
    let padding := data.getLastD 0
    if padding = 0 ∨ padding > aesBlockSize ∨ padding > data.length then
      .error "invalid PKCS7 padding"
    else if (data.drop (data.length - padding)).all (fun b => b = padding) then
      .ok (data.take (data.length - padding))
    else
      .error "invalid PKCS7 padding byte"

/-- Split a byte string into 16-byte blocks (the block traversal of
`CryptBlocks`; the last chunk is short only if the length is not a multiple
of 16, which every caller excludes). -/
def toBlocks (l : Bytes) : List Bytes :=
  if l.isEmpty then [] else l.take 16 :: toBlocks (l.drop 16)
termination_by l.length
decreasing_by
  simp only [List.length_drop]
  have : l.length ≠ 0 := by
    intro h
    simp [List.isEmpty_iff, List.length_eq_zero] at *
    simp_all
  omega

/-- Bytewise XOR of two equal-length byte strings. -/
def xorBytes (a b : Bytes) : Bytes :=
  List.zipWith (fun x y => x ^^^ y) a b

/-- CBC encryption over a block list: `c_i = encB (p_i ⊕ c_{i-1})` with
`c_0 = iv` (the semantics of `cipher.NewCBCEncrypter(block, iv).CryptBlocks`). -/
def cbcEncryptBlocks (encB : Bytes → Bytes) : Bytes → List Bytes → List Bytes
  | _, [] => []
  | prev, b :: bs =>
      let c := encB (xorBytes b prev)
      c :: cbcEncryptBlocks encB c bs

/-- CBC decryption over a block list: `p_i = decB c_i ⊕ c_{i-1}` with
`c_0 = iv` (the semantics of `cipher.NewCBCDecrypter(block, iv).CryptBlocks`). -/
def cbcDecryptBlocks (decB : Bytes → Bytes) : Bytes → List Bytes → List Bytes
  | _, [] => []
  | prev, c :: cs => xorBytes (decB c) prev :: cbcDecryptBlocks decB c cs

/-- `aesEncrypt` from crypto.go: PKCS#7-pad the plaintext and CBC-encrypt it
under the freshly drawn `iv` (the randomness is the `iv` parameter); the
function returns `(iv, ciphertext)` and this models the ciphertext half. -/
def aesEncrypt (encB : Bytes → Bytes) (iv plaintext : Bytes) : Bytes :=
  (cbcEncryptBlocks encB iv (toBlocks (pkcs7Pad plaintext aesBlockSize))).flatten

/-- `aesDecrypt` from crypto.go: reject a ciphertext whose length is zero or
not a multiple of 16, else CBC-decrypt and PKCS#7-unpad. -/
def aesDecrypt (decB : Bytes → Bytes) (iv ciphertext : Bytes) :
    Except String Bytes :=
  if ciphertext.length = 0 ∨ ciphertext.length % aesBlockSize ≠ 0 then
    .error "ciphertext length is not a multiple of AES block size"
  else
    pkcs7Unpad ((cbcDecryptBlocks decB iv (toBlocks ciphertext)).flatten)

/-- The RFC 2409 Oakley Group 2 prime from crypto.go (`ietf1024Prime`). -/
def ietf1024Prime : Nat :=
  0xFFFFFFFFFFFFFFFFC90FDAA22168C234C4C6628B80DC1CD129024E088A67CC74020BBEA63B139B22514A08798E3404DDEF9519B3CD3A431B302B0A6DF25F14374FE1356D6D51C245E485B576625E7EC6F44C42E9A637ED6B0BFF5CB6F406B7EDEE386BFB5A899FA5AE9F24117C4B1FE649286651ECE65381FFFFFFFFFFFFFFFF

/-- The private-exponent reduction of `dhGenerateKeyPair`: the 256-bit random
value `x` (read out of 32 random bytes) mapped to `(x mod (p-2)) + 2`. -/
def dhPrivateFromRandom (x : Nat) : Nat :=
  x % (ietf1024Prime - 2) + 2

/-! ## Service-level methods (service.go, collection.go) -/

/-- The D-Bus error classes the service raises (§7 of the spec). -/
inductive DBusErrClass where
  | invalidArgs
  | failed
  | noSession
  | noSuchObject
  | notSupported
  | isLocked
deriving DecidableEq, Repr

deriving instance DecidableEq for Except

/-- `collectionSlug` from service.go: lowercase the label, keep `[a-z0-9]`,
fall back to `"collection"` when nothing is left. -/
def collectionSlug (label : String) : String :=
  let kept := (label.toList.map Char.toLower).filter
    (fun c => ('a' ≤ c && c ≤ 'z') || ('0' ≤ c && c ≤ '9'))
  if kept.isEmpty then "collection" else String.mk kept

/-- The candidate names `CreateCollection` probes: the slug itself, then
`slug2`, `slug3`, … -/
def candidateName (base : String) : Nat → String
  | 0 => base
  | j + 1 => base ++ toString (j + 2)

/-- The uniqueness loop of `CreateCollection` (`for i := 2; ; i++`).  The Go
loop is unbounded; among the first `n+1` distinct candidates over a store of
`n` collections at least one is unused, so a search bounded by
`collections.length + 1` computes the same name and the fallback arm is
unreachable. -/
def uniquifyName (s : StoreData) (base : String) : String :=
  match (List.range (s.collections.length + 1)).find?
      (fun j => (assocGet? s.collections (candidateName base j)).isNone) with
  | some j => candidateName base j
  | none => candidateName base (s.collections.length + 1)

/-- The store effect of `Service.CreateCollection(properties, alias)`.
`label` is the string extracted from the `Collection.Label` property
(`"Secrets"` when absent).  When the alias already resolves, the existing
collection is returned and nothing changes; a `CreateCollection` error leaves
the store as it was; the `SetAlias` error is discarded (`_ =` in the source),
which also leaves the store unchanged on that path. -/
def serviceCreateCollection (s : StoreData) (label aliasName : String) (now : Nat) :
    StoreData :=
  if aliasName ≠ "" ∧ storeGetAlias s aliasName ≠ "" then s
  else
    let name := uniquifyName s (collectionSlug label)
    match storeCreateCollection s name label now with
    | .error _ => s
    | .ok s1 =>
        if aliasName ≠ "" then
          match storeSetAlias s1 aliasName name with
          | .ok s2 => s2
          | .error _ => s1
        else s1

/-- The store effect of `Collection.Delete()`: backend deletes are
best-effort and the unexports do not touch the store; a
`DeleteCollection` error leaves the store unchanged. -/
def serviceCollectionDelete (s : StoreData) (name : String) : StoreData :=
  match storeDeleteCollection s name with
  | .ok s1 => s1
  | .error _ => s

/-- `Service.SetAlias(name, collection)` from service.go: `"/"` or `""`
removes the alias; otherwise the path is decoded with
`CollectionNameFromPath`, an empty decode is `InvalidArgs`, and a store error
(unknown collection) surfaces as the generic `Failed`. -/
def serviceSetAlias (s : StoreData) (name collectionPath : String) :
    Except DBusErrClass StoreData :=
  if collectionPath = "/" ∨ collectionPath = "" then
    match storeSetAlias s name "" with
    | .ok s1 => .ok s1
    | .error _ => .error .failed
  else
    let colName := collectionNameFromPath collectionPath
    if colName = "" then .error .invalidArgs
    else
      match storeSetAlias s name colName with
      | .ok s1 => .ok s1
      | .error _ => .error .failed

/-- One client-observable operation on the store, as the service methods
mutate it. -/
inductive SvcOp where
  | createCollection (label aliasName : String) (now : Nat)
  | deleteCollection (name : String)
  | setAlias (name path : String)
  | createItem (collection uuid : String) (meta : ItemMeta) (now : Nat)
  | updateItem (collection uuid : String) (meta : ItemMeta) (now : Nat)
  | deleteItem (collection uuid : String) (now : Nat)
deriving DecidableEq, Repr

/-- Apply one service operation; every bus-level error leaves the durable
store untouched (store mutations in the source either complete or return
before mutating). -/
def applyOp (s : StoreData) : SvcOp → StoreData
  | .createCollection label aliasName now => serviceCreateCollection s label aliasName now
  | .deleteCollection name => serviceCollectionDelete s name
  | .setAlias name path =>
      match serviceSetAlias s name path with
      | .ok s1 => s1
      | .error _ => s
  | .createItem col uuid meta now =>
      match storeCreateItem s col uuid meta now with
      | .ok s1 => s1
      | .error _ => s
  | .updateItem col uuid meta now =>
      match storeUpdateItem s col uuid meta now with
      | .ok s1 => s1
      | .error _ => s
  | .deleteItem col uuid now =>
      match storeDeleteItem s col uuid now with
      | .ok s1 => s1
      | .error _ => s

/-- Apply a sequence of service operations in order. -/
def applyOps (s : StoreData) (ops : List SvcOp) : StoreData :=
  ops.foldl applyOp s

/-- The seeded-state property of claim C2: the `"login"` collection exists
and the `"default"` alias resolves to it. -/
def hasLoginDefault (s : StoreData) : Bool :=
  (assocGet? s.collections "login").isSome && storeGetAlias s "default" == "login"

/-- Operations that do not attack the seed directly: anything but deleting
the `"login"` collection or re-targeting the `"default"` alias. -/
def preservesLoginSeed : SvcOp → Bool
  | .deleteCollection name => name ≠ "login"
  | .setAlias name _ => name ≠ "default"
  | _ => true

/-! ## Vault bridge (wincred bridge, `Bridge.Set`) -/

/-- `Bridge.Set(target, secret)`: refuse payloads over 2560 bytes before any
helper call; otherwise the helper process is spawned and its response decides
the outcome.  The spawn-per-call JSON transport is abstracted as the oracle
`helper`, the response to a `set` request for `(target, secret)`:
`.ok ()` for `ok=true`, `.error e` for a logical or transport failure. -/
def bridgeSet (helper : String → Bytes → Except String Unit)
    (target : String) (secret : Bytes) : Except String Unit :=
  if secret.length > 2560 then
    .error "secret too large for Windows Credential Manager"
  else
    match helper target secret with
    | .ok () => .ok ()
    | .error e => .error e

/-! ## CreateItem metadata (collection.go, prompt.go/item.go) -/

/-- The payload of a `dbus.Variant` as `itemMetaFromProperties` inspects it:
a string, an attribute dictionary, or anything else (whose type assertion
fails). -/
inductive DBusValue where
  | str (s : String)
  | dict (m : AttrMap)
  | other
deriving DecidableEq, Repr

/-- `itemMetaFromProperties` from the service package: the metadata starts
with empty attributes and content type `"text/plain; charset=utf8"`, then the
`Collection.Label`, `Item.Label` and `Item.Attributes` properties overwrite
the label and attributes when their type assertions succeed.  The content
type is never touched. -/
def itemMetaFromProperties (properties : List (String × DBusValue)) : ItemMeta :=
  let meta : ItemMeta :=
    { label := "", attributes := [], created := 0, modified := 0,
      contentType := "text/plain; charset=utf8" }
  let meta :=
    match assocGet? properties "org.freedesktop.Secret.Collection.Label" with
    | some (.str s) => { meta with label := s }
    | _ => meta
  let meta :=
    match assocGet? properties "org.freedesktop.Secret.Item.Label" with
    | some (.str s) => { meta with label := s }
    | _ => meta
  match assocGet? properties "org.freedesktop.Secret.Item.Attributes" with
  | some (.dict attrs) => { meta with attributes := attrs }
  | _ => meta

/-- The metadata `Collection.CreateItem` records: `itemMetaFromProperties`
plus the fallback `if meta.ContentType == "" && secret.ContentType != ""`
that would copy the Secret'''s content type. -/
def createItemMeta (properties : List (String × DBusValue))
    (secretContentType : String) : ItemMeta :=
  let meta := itemMetaFromProperties properties
  if meta.contentType = "" ∧ secretContentType ≠ "" then
    { meta with contentType := secretContentType }
  else meta

/-! ## Association-list lemmas -/

theorem assocGet?_assocSet_self {α : Type} (m : List (String × α)) (k : String) (v : α) :
    assocGet? (assocSet m k v) k = some v := by
  induction m with
  | nil => simp [assocSet, assocGet?]
  | cons hd tl ih =>
      obtain ⟨k', v'⟩ := hd
      by_cases h : k' = k <;> simp [assocSet, assocGet?, h, ih]

theorem assocGet?_assocSet_ne {α : Type} (m : List (String × α)) (k k' : String) (v : α)
    (h : k' ≠ k) : assocGet? (assocSet m k v) k' = assocGet? m k' := by
  induction m with
  | nil =>
      show (if k = k' then some v else none) = none
      rw [if_neg (Ne.symm h)]
  | cons hd tl ih =>
      obtain ⟨k0, v0⟩ := hd
      by_cases h0 : k0 = k
      · subst h0
        show assocGet? (if k0 = k0 then (k0, v) :: tl else (k0, v0) :: assocSet tl k0 v) k' =
          assocGet? ((k0, v0) :: tl) k'
        rw [if_pos rfl]
        show (if k0 = k' then some v else assocGet? tl k') =
          if k0 = k' then some v0 else assocGet? tl k'
        rw [if_neg (Ne.symm h), if_neg (Ne.symm h)]
      · show assocGet? (if k0 = k then (k, v) :: tl else (k0, v0) :: assocSet tl k v) k' =
          assocGet? ((k0, v0) :: tl) k'
        rw [if_neg h0]
        show (if k0 = k' then some v0 else assocGet? (assocSet tl k v) k') =
          if k0 = k' then some v0 else assocGet? tl k'
        by_cases h1 : k0 = k'
        · rw [if_pos h1, if_pos h1]
        · rw [if_neg h1, if_neg h1, ih]

theorem assocGet?_assocDel_ne {α : Type} (m : List (String × α)) (k k' : String)
    (h : k' ≠ k) : assocGet? (assocDel m k) k' = assocGet? m k' := by
  induction m with
  | nil => rfl
  | cons hd tl ih =>
      obtain ⟨k0, v0⟩ := hd
      by_cases h0 : k0 = k
      · subst h0
        show assocGet? (if k0 = k0 then assocDel tl k0 else (k0, v0) :: assocDel tl k0) k' =
          if k0 = k' then some v0 else assocGet? tl k'
        rw [if_pos rfl, if_neg (fun hh => h (hh.symm)), ih]
      · show assocGet? (if k0 = k then assocDel tl k else (k0, v0) :: assocDel tl k) k' =
          if k0 = k' then some v0 else assocGet? tl k'
        rw [if_neg h0]
        show (if k0 = k' then some v0 else assocGet? (assocDel tl k) k') =
          if k0 = k' then some v0 else assocGet? tl k'
        by_cases h1 : k0 = k'
        · rw [if_pos h1, if_pos h1]
        · rw [if_neg h1, if_neg h1, ih]

theorem assocGet?_dropAliasesTo (m : List (String × String)) (k v bad : String)
    (hget : assocGet? m k = some v) (hne : v ≠ bad) :
    assocGet? (dropAliasesTo m bad) k = some v := by
  induction m with
  | nil => exact absurd hget (by simp [assocGet?])
  | cons hd tl ih =>
      obtain ⟨k0, v0⟩ := hd
      show assocGet?
        (if v0 = bad then dropAliasesTo tl bad else (k0, v0) :: dropAliasesTo tl bad) k = some v
      by_cases h0 : k0 = k
      · subst h0
        rw [show assocGet? ((k0, v0) :: tl) k0 = some v0 from if_pos rfl] at hget
        obtain rfl : v0 = v := by injection hget
        rw [if_neg hne]
        exact if_pos rfl
      · rw [show assocGet? ((k0, v0) :: tl) k = assocGet? tl k from if_neg h0] at hget
        by_cases hv : v0 = bad
        · rw [if_pos hv]
          exact ih hget
        · rw [if_neg hv]
          show (if k0 = k then some v0 else assocGet? (dropAliasesTo tl bad) k) = some v
          rw [if_neg h0]
          exact ih hget

theorem isSome_assocGet?_assocSet {α : Type} (m : List (String × α)) (k k' : String) (v : α)
    (h : (assocGet? m k').isSome = true) :
    (assocGet? (assocSet m k v) k').isSome = true := by
  by_cases hk : k' = k
  · subst hk
    simp [assocGet?_assocSet_self]
  · rw [assocGet?_assocSet_ne m k k' v hk]
    exact h

/-! ## C7: the DH private exponent range -/

/-- Claim C7: for every 256-bit random value `x`, the private exponent
`(x mod (p-2)) + 2` computed by `dhGenerateKeyPair` lies in `[2, p-2]`,
where `p` is the RFC 2409 Oakley Group 2 prime. -/
theorem dh_private_exponent_in_range (x : Nat) (h : x < 2 ^ 256) :
    2 ≤ dhPrivateFromRandom x ∧ dhPrivateFromRandom x ≤ ietf1024Prime - 2 := by
  constructor
  · exact Nat.le_add_left 2 _
  · have hlt : 2 ^ 256 + 2 ≤ ietf1024Prime - 2 := by norm_num [ietf1024Prime]
    have hmod : x % (ietf1024Prime - 2) ≤ x := Nat.mod_le _ _
    unfold dhPrivateFromRandom
    omega

/-- Witness for C7 at the concrete random value `x = 5`. -/
theorem dh_private_exponent_in_range_witness :
    2 ≤ dhPrivateFromRandom 5 ∧ dhPrivateFromRandom 5 ≤ ietf1024Prime - 2 :=
  dh_private_exponent_in_range 5 (by norm_num)

/-! ## C8: the vault bridge size bound -/

/-- Claim C8: `Bridge.Set` fails on any payload longer than 2560 bytes
without consulting the helper (the result is the same for every helper
oracle), and succeeds on any payload of at most 2560 bytes whenever the
helper reports success. -/
theorem bridgeSet_size_bound (h₁ h₂ : String → Bytes → Except String Unit)
    (target : String) (secret : Bytes) :
    (secret.length > 2560 →
      (∃ e, bridgeSet h₁ target secret = .error e) ∧
        bridgeSet h₁ target secret = bridgeSet h₂ target secret) ∧
    (secret.length ≤ 2560 → h₁ target secret = .ok () →
      bridgeSet h₁ target secret = .ok ()) := by
  constructor
  · intro hbig
    simp [bridgeSet, hbig]
  · intro hsmall hok
    simp [bridgeSet, Nat.not_lt.mpr hsmall, hok]

/-- Witness for C8: a 2561-byte payload is refused, a 1-byte payload with a
succeeding helper goes through. -/
theorem bridgeSet_size_bound_witness :
    (∃ e, bridgeSet (fun _ _ => .ok ()) "wsl-ss/login/u" (List.replicate 2561 0) = .error e) ∧
      bridgeSet (fun _ _ => .ok ()) "wsl-ss/login/u" [7] = .ok () :=
  ⟨((bridgeSet_size_bound (fun _ _ => .ok ()) (fun _ _ => .ok ()) "wsl-ss/login/u"
      (List.replicate 2561 0)).1 (by rw [List.length_replicate]; omega)).1,
   (bridgeSet_size_bound (fun _ _ => .ok ()) (fun _ _ => .ok ()) "wsl-ss/login/u"
      [7]).2 (by simp) rfl⟩

/-! ## C10: CreateItem content type -/

/-- Claim C10: the metadata `Collection.CreateItem` records always carries
content type `"text/plain; charset=utf8"`; the fallback copying the incoming
Secret'''s content type never fires, because `itemMetaFromProperties` always
yields the non-empty default. -/
theorem createItem_contentType_default (properties : List (String × DBusValue))
    (secretContentType : String) :
    createItemMeta properties secretContentType = itemMetaFromProperties properties ∧
      (itemMetaFromProperties properties).contentType = "text/plain; charset=utf8" := by
  have hct : (itemMetaFromProperties properties).contentType = "text/plain; charset=utf8" := by
    unfold itemMetaFromProperties
    cases assocGet? properties "org.freedesktop.Secret.Collection.Label" with
    | none =>
        cases assocGet? properties "org.freedesktop.Secret.Item.Label" with
        | none =>
            cases h : assocGet? properties "org.freedesktop.Secret.Item.Attributes" with
            | none => simp [h]
            | some v => cases v <;> simp [h]
        | some v =>
            cases v <;>
              (cases h : assocGet? properties "org.freedesktop.Secret.Item.Attributes" with
               | none => simp [h]
               | some w => cases w <;> simp [h])
    | some v =>
        cases v <;>
          (cases h1 : assocGet? properties "org.freedesktop.Secret.Item.Label" with
           | none =>
               cases h : assocGet? properties "org.freedesktop.Secret.Item.Attributes" with
               | none => simp [h1, h]
               | some w => cases w <;> simp [h1, h]
           | some w =>
               cases w <;>
                 (cases h : assocGet? properties "org.freedesktop.Secret.Item.Attributes" with
                  | none => simp [h1, h]
                  | some u => cases u <;> simp [h1, h]))
  refine ⟨?_, hct⟩
  unfold createItemMeta
  rw [if_neg]
  intro ⟨hempty, _⟩
  rw [hct] at hempty
  simp at hempty

/-! ## C3: paths without the collection prefix -/

/-- Counterexample to claim C3: the parsers never verify the prefix, only the
length.  A 41-character path that does not start with the collection prefix
yields the garbage name `"aaaaa"` (the characters after position 36), and an
unrelated item-shaped path yields a non-empty garbage uuid. -/
theorem nonPrefix_path_yields_garbage :
    (startsWithCollectionPath "/aaaaaaaaaaaaaaaaaaaaaaaaaaaaaaaaaaaaaaaa" = false ∧
      collectionNameFromPath "/aaaaaaaaaaaaaaaaaaaaaaaaaaaaaaaaaaaaaaaa" = "aaaaa") ∧
    (startsWithCollectionPath "/org/freedesktop/secrets/session/abc/def" = false ∧
      itemUUIDFromPath "/org/freedesktop/secrets/session/abc/def" = ("", "def")) := by
  constructor
  · exact ⟨by decide, by decide⟩
  · exact ⟨by decide, by decide⟩

/-- Claim C3 amended: the parsers return empty results for every path that is
not longer than the collection prefix (in particular for `"/"` and `""`);
longer paths are sliced at the prefix length without any check that they
actually carry the prefix. -/
theorem short_path_yields_empty_results (p : String)
    (h : p.length ≤ collectionPathPrefix.length) :
    collectionNameFromPath p = "" ∧ itemUUIDFromPath p = ("", "") := by
  constructor
  · unfold collectionNameFromPath
    rw [if_pos h]
  · unfold itemUUIDFromPath
    rw [if_pos h]

/-- Witness for the amended C3 at the root path `"/"`. -/
theorem short_path_yields_empty_results_witness :
    collectionNameFromPath "/" = "" ∧ itemUUIDFromPath "/" = ("", "") :=
  short_path_yields_empty_results "/" (by decide)

/-! ## C6: rejection of malformed ciphertext and padding -/

/-- Claim C6: `aesDecrypt` rejects every ciphertext whose length is zero or
not a multiple of 16, and `pkcs7Unpad` rejects every buffer whose final byte
is `0`, above 16 or above the buffer length, and every buffer whose padding
region holds a byte different from the pad length. -/
theorem decrypt_unpad_reject_invalid :
    (∀ (decB : Bytes → Bytes) (iv ct : Bytes),
        ct.length = 0 ∨ ct.length % aesBlockSize ≠ 0 →
        ∃ e, aesDecrypt decB iv ct = .error e) ∧
    (∀ data : Bytes,
        data.getLastD 0 = 0 ∨ data.getLastD 0 > aesBlockSize ∨
          data.getLastD 0 > data.length →
        ∃ e, pkcs7Unpad data = .error e) ∧
    (∀ data : Bytes,
        (∃ b ∈ data.drop (data.length - data.getLastD 0), b ≠ data.getLastD 0) →
        ∃ e, pkcs7Unpad data = .error e) := by
  refine ⟨?_, ?_, ?_⟩
  · intro decB iv ct h
    unfold aesDecrypt
    rw [if_pos h]
    exact ⟨_, rfl⟩
  · intro data h
    unfold pkcs7Unpad
    by_cases h0 : data.length = 0
    · rw [if_pos h0]
      exact ⟨_, rfl⟩
    · rw [if_neg h0]
      simp only
      rw [if_pos h]
      exact ⟨_, rfl⟩
  · intro data h
    obtain ⟨b, hmem, hb⟩ := h
    unfold pkcs7Unpad
    by_cases h0 : data.length = 0
    · rw [if_pos h0]
      exact ⟨_, rfl⟩
    · rw [if_neg h0]
      simp only
      by_cases h1 : data.getLastD 0 = 0 ∨ data.getLastD 0 > aesBlockSize ∨
          data.getLastD 0 > data.length
      · rw [if_pos h1]
        exact ⟨_, rfl⟩
      · rw [if_neg h1, if_neg]
        · exact ⟨_, rfl⟩
        · intro hall
          exact hb (by simpa using List.all_eq_true.mp hall b hmem)

/-- Witness for C6: a one-byte ciphertext, a buffer ending in `0`, and a
buffer `[1, 2]` whose padding region contains `1 ≠ 2`. -/
theorem decrypt_unpad_reject_invalid_witness :
    (∃ e, aesDecrypt id [] [1] = .error e) ∧
      (∃ e, pkcs7Unpad [0] = .error e) ∧ ∃ e, pkcs7Unpad [1, 2] = .error e :=
  ⟨decrypt_unpad_reject_invalid.1 id [] [1] (by decide),
   decrypt_unpad_reject_invalid.2.1 [0] (by decide),
   decrypt_unpad_reject_invalid.2.2 [1, 2] (by decide)⟩

/-! ## C4: the error classes of Service.SetAlias -/

/-- Counterexample to claim C4: a path that parses to a collection name
absent from the store is answered with the generic `Failed` class, not with
`InvalidArgs` as the claim states. -/
theorem setAlias_unknown_collection_not_invalidArgs :
    serviceSetAlias (storeNew emptyStoreData 0) "x"
        "/org/freedesktop/secrets/collection/nosuch" = .error .failed ∧
      DBusErrClass.failed ≠ DBusErrClass.invalidArgs := by
  constructor
  · decide
  · decide

/-- Claim C4 amended: `SetAlias` succeeds on `"/"` and `""` (alias removal)
and on paths whose decoded name is a known collection; an undecodable path
(empty decode) is `InvalidArgs`; a decodable name that is not in the store
is the generic `Failed`, not `InvalidArgs`. -/
theorem setAlias_error_classes (s : StoreData) (name path : String) :
    (path = "/" ∨ path = "" → ∃ s1, serviceSetAlias s name path = .ok s1) ∧
    (path ≠ "/" → path ≠ "" → collectionNameFromPath path = "" →
      serviceSetAlias s name path = .error .invalidArgs) ∧
    (path ≠ "/" → path ≠ "" → collectionNameFromPath path ≠ "" →
      (assocGet? s.collections (collectionNameFromPath path)).isSome = false →
      serviceSetAlias s name path = .error .failed) ∧
    (path ≠ "/" → path ≠ "" → collectionNameFromPath path ≠ "" →
      (assocGet? s.collections (collectionNameFromPath path)).isSome = true →
      ∃ s1, serviceSetAlias s name path = .ok s1) := by
  refine ⟨?_, ?_, ?_, ?_⟩
  · intro h
    unfold serviceSetAlias
    rw [if_pos h]
    unfold storeSetAlias
    rw [if_pos rfl]
    exact ⟨_, rfl⟩
  · intro h1 h2 hcol
    unfold serviceSetAlias
    rw [if_neg (by tauto)]
    simp only
    rw [if_pos hcol]
  · intro h1 h2 hcol habs
    unfold serviceSetAlias
    rw [if_neg (by tauto)]
    simp only
    rw [if_neg hcol]
    unfold storeSetAlias
    rw [if_neg hcol, if_neg (by simp [habs])]
  · intro h1 h2 hcol hpres
    unfold serviceSetAlias
    rw [if_neg (by tauto)]
    simp only
    rw [if_neg hcol]
    unfold storeSetAlias
    rw [if_neg hcol, if_pos hpres]
    exact ⟨_, rfl⟩

/-- Witness for the amended C4, exercising all four outcomes on the freshly
seeded store. -/
theorem setAlias_error_classes_witness :
    (∃ s1, serviceSetAlias (storeNew emptyStoreData 0) "primary" "/" = .ok s1) ∧
    serviceSetAlias (storeNew emptyStoreData 0) "primary" "/short" =
      .error .invalidArgs ∧
    serviceSetAlias (storeNew emptyStoreData 0) "primary"
      "/org/freedesktop/secrets/collection/other" = .error .failed ∧
    ∃ s1, serviceSetAlias (storeNew emptyStoreData 0) "primary"
      "/org/freedesktop/secrets/collection/login" = .ok s1 :=
  ⟨(setAlias_error_classes _ _ _).1 (Or.inl rfl),
   (setAlias_error_classes _ _ _).2.1 (by decide) (by decide) (by decide),
   (setAlias_error_classes _ _ _).2.2.1 (by decide) (by decide) (by decide) (by decide),
   (setAlias_error_classes _ _ _).2.2.2 (by decide) (by decide) (by decide) (by decide)⟩

/-! ## C2: seeding of the login collection and the default alias -/

theorem hasLoginDefault_intro (s : StoreData)
    (h1 : (assocGet? s.collections "login").isSome = true)
    (h2 : assocGet? s.aliases "default" = some "login") :
    hasLoginDefault s = true := by
  simp [hasLoginDefault, storeGetAlias, mapGet, h1, h2]

theorem hasLoginDefault_col (s : StoreData) (h : hasLoginDefault s = true) :
    (assocGet? s.collections "login").isSome = true := by
  unfold hasLoginDefault at h
  exact (Bool.and_eq_true_iff.mp h).1

theorem hasLoginDefault_alias (s : StoreData) (h : hasLoginDefault s = true) :
    assocGet? s.aliases "default" = some "login" := by
  unfold hasLoginDefault storeGetAlias mapGet at h
  have h2 := (Bool.and_eq_true_iff.mp h).2
  cases hh : assocGet? s.aliases "default" with
  | none => rw [hh] at h2; simp at h2
  | some v =>
      rw [hh] at h2
      simp only [Option.getD_some, beq_iff_eq] at h2
      rw [h2]

theorem applyOp_preserves_seed (s : StoreData) (op : SvcOp)
    (hs : hasLoginDefault s = true) (hop : preservesLoginSeed op = true) :
    hasLoginDefault (applyOp s op) = true := by
  have hcol := hasLoginDefault_col s hs
  have halias := hasLoginDefault_alias s hs
  cases op with
  | createCollection label aliasName now =>
      simp only [applyOp, serviceCreateCollection]
      by_cases hres : aliasName ≠ "" ∧ storeGetAlias s aliasName ≠ ""
      · rw [if_pos hres]; exact hs
      · rw [if_neg hres]
        split
        · exact hs
        · rename_i s1 hcc
          unfold storeCreateCollection at hcc
          by_cases hex : (assocGet? s.collections
              (uniquifyName s (collectionSlug label))).isSome = true
          · rw [if_pos hex] at hcc
            simp at hcc
          · rw [if_neg hex] at hcc
            injection hcc with hcc
            subst hcc
            have hnamene : "login" ≠ uniquifyName s (collectionSlug label) := by
              intro hh
              rw [← hh] at hex
              exact hex hcol
            have h1col : (assocGet? (assocSet s.collections
                (uniquifyName s (collectionSlug label))
                { label := label, created := now, modified := now,
                  items := [] }) "login").isSome = true := by
              rw [assocGet?_assocSet_ne _ _ _ _ hnamene]
              exact hcol
            by_cases haN : aliasName ≠ ""
            · rw [if_pos haN]
              have hget0 : storeGetAlias s aliasName = "" := by
                by_cases hg : storeGetAlias s aliasName = ""
                · exact hg
                · exact absurd ⟨haN, hg⟩ hres
              have hadef : aliasName ≠ "default" := by
                intro hh
                rw [hh] at hget0
                unfold storeGetAlias mapGet at hget0
                rw [halias] at hget0
                simp at hget0
              split
              · rename_i s2 hsa
                unfold storeSetAlias at hsa
                by_cases hn0 : uniquifyName s (collectionSlug label) = ""
                · rw [if_pos hn0] at hsa
                  injection hsa with hsa
                  subst hsa
                  refine hasLoginDefault_intro _ h1col ?_
                  rw [assocGet?_assocDel_ne _ _ _ (Ne.symm hadef)]
                  exact halias
                · rw [if_neg hn0] at hsa
                  by_cases hsome : (assocGet? (assocSet s.collections
                      (uniquifyName s (collectionSlug label))
                      { label := label, created := now, modified := now,
                        items := [] })
                      (uniquifyName s (collectionSlug label))).isSome = true
                  · rw [if_pos hsome] at hsa
                    injection hsa with hsa
                    subst hsa
                    refine hasLoginDefault_intro _ h1col ?_
                    rw [assocGet?_assocSet_ne _ _ _ _ (Ne.symm hadef)]
                    exact halias
                  · rw [if_neg hsome] at hsa
                    simp at hsa
              · exact hasLoginDefault_intro _ h1col halias
            · rw [if_neg haN]
              exact hasLoginDefault_intro _ h1col halias
  | deleteCollection name =>
      have hne : name ≠ "login" := of_decide_eq_true hop
      simp only [applyOp, serviceCollectionDelete]
      split
      · rename_i s1 hdc
        unfold storeDeleteCollection at hdc
        by_cases hex : (assocGet? s.collections name).isSome = true
        · rw [if_pos hex] at hdc
          injection hdc with hdc
          subst hdc
          refine hasLoginDefault_intro _ ?_ ?_
          · rw [assocGet?_assocDel_ne _ _ _ (Ne.symm hne)]
            exact hcol
          · exact assocGet?_dropAliasesTo _ _ _ _ halias (Ne.symm hne)
        · rw [if_neg hex] at hdc
          simp at hdc
      · exact hs
  | setAlias name path =>
      have hne : name ≠ "default" := of_decide_eq_true hop
      simp only [applyOp]
      split
      · rename_i s1 hsa
        unfold serviceSetAlias at hsa
        by_cases hroot : path = "/" ∨ path = ""
        · rw [if_pos hroot] at hsa
          unfold storeSetAlias at hsa
          rw [if_pos rfl] at hsa
          injection hsa with hsa
          subst hsa
          refine hasLoginDefault_intro _ hcol ?_
          rw [assocGet?_assocDel_ne _ _ _ (Ne.symm hne)]
          exact halias
        · rw [if_neg hroot] at hsa
          by_cases hcn : collectionNameFromPath path = ""
          · rw [if_pos hcn] at hsa
            simp at hsa
          · rw [if_neg hcn] at hsa
            unfold storeSetAlias at hsa
            rw [if_neg hcn] at hsa
            by_cases hsome : (assocGet? s.collections
                (collectionNameFromPath path)).isSome = true
            · rw [if_pos hsome] at hsa
              injection hsa with hsa
              subst hsa
              refine hasLoginDefault_intro _ hcol ?_
              rw [assocGet?_assocSet_ne _ _ _ _ (Ne.symm hne)]
              exact halias
            · rw [if_neg hsome] at hsa
              simp at hsa
      · exact hs
  | createItem col uuid meta now =>
      simp only [applyOp]
      split
      · rename_i s1 hci
        unfold storeCreateItem at hci
        split at hci
        · simp at hci
        · injection hci with hci
          subst hci
          exact hasLoginDefault_intro _
            (isSome_assocGet?_assocSet _ _ _ _ hcol) halias
      · exact hs
  | updateItem col uuid meta now =>
      simp only [applyOp]
      split
      · rename_i s1 hui
        unfold storeUpdateItem at hui
        split at hui
        · simp at hui
        · split at hui
          · injection hui with hui
            subst hui
            exact hasLoginDefault_intro _
              (isSome_assocGet?_assocSet _ _ _ _ hcol) halias
          · simp at hui
      · exact hs
  | deleteItem col uuid now =>
      simp only [applyOp]
      split
      · rename_i s1 hdi
        unfold storeDeleteItem at hdi
        split at hdi
        · simp at hdi
        · split at hdi
          · injection hdi with hdi
            subst hdi
            exact hasLoginDefault_intro _
              (isSome_assocGet?_assocSet _ _ _ _ hcol) halias
          · simp at hdi
      · exact hs

theorem applyOps_preserves_seed (ops : List SvcOp) (s : StoreData)
    (hs : hasLoginDefault s = true)
    (hops : ∀ op ∈ ops, preservesLoginSeed op = true) :
    hasLoginDefault (applyOps s ops) = true := by
  induction ops generalizing s with
  | nil => exact hs
  | cons op rest ih =>
      exact ih (applyOp s op)
        (applyOp_preserves_seed s op hs (hops op (by simp)))
        (fun o ho => hops o (by simp [ho]))

/-- Counterexample to claim C2: `Collection.Delete` on `"login"` removes the
login collection and sweeps away the `default` alias, so the seeded state
does not survive every operation sequence. -/
theorem delete_login_breaks_seed :
    hasLoginDefault (applyOps (storeNew emptyStoreData 0)
      [SvcOp.deleteCollection "login"]) = false := by decide

/-- Claim C2 amended: starting from an empty config directory, store
initialization seeds the `"login"` collection and the `"default"` alias
resolving to it, and the seeded state survives any sequence of service
operations that never deletes the `"login"` collection and never re-targets
or removes the `"default"` alias.  (`Collection.Delete("login")` or
`SetAlias("default", …)` can destroy it; nothing restores it before the next
initialization.) -/
theorem login_default_seeded_and_stable (now : Nat) (ops : List SvcOp)
    (hops : ∀ op ∈ ops, preservesLoginSeed op = true) :
    hasLoginDefault (storeNew emptyStoreData now) = true ∧
      hasLoginDefault (applyOps (storeNew emptyStoreData now) ops) = true := by
  have hseed : hasLoginDefault (storeNew emptyStoreData now) = true := by
    refine hasLoginDefault_intro _ ?_ ?_ <;>
      simp [storeNew, emptyStoreData, assocGet?, assocSet]
  exact ⟨hseed, applyOps_preserves_seed ops _ hseed hops⟩

/-- Witness for the amended C2: a delete of another collection, an alias
update away from `default`, and an item creation in `login`. -/
theorem login_default_seeded_and_stable_witness :
    hasLoginDefault (storeNew emptyStoreData 0) = true ∧
      hasLoginDefault (applyOps (storeNew emptyStoreData 0)
        [SvcOp.createCollection "Work" "" 1,
         SvcOp.setAlias "primary" "/org/freedesktop/secrets/collection/login",
         SvcOp.createItem "login" "u1"
           { label := "L", attributes := [("service", "github.com")],
             created := 0, modified := 0,
             contentType := "text/plain; charset=utf8" } 2,
         SvcOp.deleteCollection "work"]) = true :=
  login_default_seeded_and_stable 0 _ (by decide)

/-! ## C1: search semantics -/

/-- Counterexample to claim C1: the query `{"k": ""}` matches an item whose
attribute map does not contain the key `"k"` at all, because `matchesAll`
reads absent keys as the Go zero value `""`.  The claim'''s containment (key
present with equal value) is false for that item. -/
theorem searchItems_matches_absent_key :
    (⟨"login", "u1"⟩ : ItemRef) ∈ searchItems searchExampleStore [("k", "")] ∧
      ∃ cm, assocGet? searchExampleStore.collections "login" = some cm ∧
        ∃ im, assocGet? cm.items "u1" = some im ∧
          specPointwiseContained [("k", "")] im.attributes = false := by
  constructor
  · decide
  · exact ⟨_, rfl, _, rfl, by decide⟩

/-- Claim C1 amended: an item is returned by `SearchItems` (and by
`SearchItemsInCollection` for its collection) iff every pair `(k,v)` of the
query satisfies `A[k] = v` under the Go map read, which yields `""` for an
absent key — so a pair `(k, "")` also matches items lacking `k` entirely.
An empty query still matches every item. -/
theorem searchItems_mem_iff (s : StoreData) (q : AttrMap) (col uuid : String) :
    ((⟨col, uuid⟩ : ItemRef) ∈ searchItems s q ↔
      ∃ ce ∈ s.collections, ce.1 = col ∧
        ∃ ie ∈ ce.2.items, ie.1 = uuid ∧
          ∀ kv ∈ q, mapGet ie.2.attributes kv.1 = kv.2) ∧
    (∀ colName, (⟨col, uuid⟩ : ItemRef) ∈ searchItemsInCollection s colName q ↔
      col = colName ∧ ∃ cm, assocGet? s.collections colName = some cm ∧
        ∃ ie ∈ cm.items, ie.1 = uuid ∧
          ∀ kv ∈ q, mapGet ie.2.attributes kv.1 = kv.2) := by
  have hmatch : ∀ a : AttrMap, matchesAll a q = true ↔
      ∀ kv ∈ q, mapGet a kv.1 = kv.2 := by
    intro a
    unfold matchesAll
    rw [List.all_eq_true]
    constructor
    · intro h kv hkv
      simpa using h kv hkv
    · intro h kv hkv
      simpa using h kv hkv
  constructor
  · constructor
    · intro hmem
      simp only [searchItems, List.mem_flatMap, List.mem_map, List.mem_filter] at hmem
      obtain ⟨ce, hce, ie, ⟨hie, hmt⟩, heq⟩ := hmem
      rw [ItemRef.mk.injEq] at heq
      exact ⟨ce, hce, heq.1, ie, hie, heq.2, (hmatch _).mp hmt⟩
    · rintro ⟨ce, hce, rfl, ie, hie, rfl, hall⟩
      simp only [searchItems, List.mem_flatMap, List.mem_map, List.mem_filter]
      exact ⟨ce, hce, ie, ⟨hie, (hmatch _).mpr hall⟩, rfl⟩
  · intro colName
    cases hcm : assocGet? s.collections colName with
    | none =>
        simp only [searchItemsInCollection, hcm]
        simp
    | some cm =>
        simp only [searchItemsInCollection, hcm, List.mem_map, List.mem_filter]
        constructor
        · rintro ⟨ie, ⟨hie, hmt⟩, heq⟩
          rw [ItemRef.mk.injEq] at heq
          exact ⟨heq.1.symm, cm, rfl, ie, hie, heq.2, (hmatch _).mp hmt⟩
        · rintro ⟨rfl, cm1, hcm1, ie, hie, huuid, hall⟩
          obtain rfl : cm1 = cm := by
            injection hcm1 with h
            exact h.symm
          exact ⟨ie, ⟨hie, (hmatch _).mpr hall⟩, by rw [ItemRef.mk.injEq]; exact ⟨rfl, huuid⟩⟩

/-! ## C9: the item-path round trip -/

theorem takeWhile_append_of_all {α : Type} (p : α → Bool) (l r : List α)
    (h : ∀ a ∈ l, p a = true) : (l ++ r).takeWhile p = l ++ r.takeWhile p := by
  induction l with
  | nil => simp
  | cons a tl ih =>
      rw [List.cons_append, List.takeWhile_cons, if_pos (h a (by simp)),
        ih (fun b hb => h b (by simp [hb])), List.cons_append]

theorem dropWhile_append_of_all {α : Type} (p : α → Bool) (l r : List α)
    (h : ∀ a ∈ l, p a = true) : (l ++ r).dropWhile p = r.dropWhile p := by
  induction l with
  | nil => simp
  | cons a tl ih =>
      rw [List.cons_append, List.dropWhile_cons, if_pos (h a (by simp))]
      exact ih (fun b hb => h b (by simp [hb]))

theorem collectionName_chars (s : String) (h : isCollectionName s = true) :
    ∀ c ∈ s.toList, (('a' ≤ c && c ≤ 'z') || ('0' ≤ c && c ≤ '9')) = true := by
  intro c hc
  unfold isCollectionName at h
  exact List.all_eq_true.mp (Bool.and_eq_true_iff.mp h).2 c hc

theorem canonicalUUID_chars (s : String) (h : isCanonicalUUID s = true) :
    ∀ c ∈ s.toList, c = '-' ∨ isLowerHexDigit c = true := by
  intro c hc
  unfold isCanonicalUUID at h
  obtain ⟨hlen, hall⟩ := Bool.and_eq_true_iff.mp h
  have hlen36 : s.toList.length = 36 := by simpa using hlen
  obtain ⟨i, hi, rfl⟩ := List.mem_iff_getElem.mp hc
  have hx := List.all_eq_true.mp hall i (by rw [List.mem_range]; omega)
  simp only at hx
  rw [List.getD_eq_getElem s.toList ' ' hi] at hx
  by_cases h8 : (i = 8 || i = 13 || i = 18 || i = 23) = true
  · rw [if_pos h8] at hx
    exact Or.inl (by simpa using hx)
  · rw [if_neg h8] at hx
    exact Or.inr hx

theorem collectionName_no_slash (s : String) (h : isCollectionName s = true) :
    ∀ c ∈ s.toList, (c ≠ '/' : Bool) = true := by
  intro c hc
  have := collectionName_chars s h c hc
  rcases Bool.or_eq_true_iff.mp this with h1 | h1 <;>
    obtain ⟨ha, hb⟩ := Bool.and_eq_true_iff.mp h1
  · simp only [decide_eq_true_eq]
    intro rfl0
    rw [rfl0] at ha
    exact absurd ha (by decide)
  · simp only [decide_eq_true_eq]
    intro rfl0
    rw [rfl0] at ha
    exact absurd ha (by decide)

theorem canonicalUUID_no_underscore (s : String) (h : isCanonicalUUID s = true) :
    ∀ c ∈ s.toList, c ≠ '_' := by
  intro c hc heq
  rcases canonicalUUID_chars s h c hc with h1 | h1
  · rw [heq] at h1; exact absurd h1 (by decide)
  · rw [heq] at h1; exact absurd h1 (by decide)

/-- Claim C9: for a collection name matching the naming rule and a canonical
hyphenated lowercase uuid, parsing the generated item bus path restores the
pair exactly, hyphens being rendered as underscores on the path and restored
when parsing. -/
theorem itemPath_roundtrip (collection uuid : String)
    (hcol : isCollectionName collection = true)
    (huuid : isCanonicalUUID uuid = true) :
    itemUUIDFromPath (itemPath collection uuid) = (collection, uuid) := by
  have hdata : (itemPath collection uuid).data =
      collectionPathPrefix.data ++
        (collection.data ++ '/' :: uuid.data.map dashToUnderscore) := by
    simp [itemPath, String.data_append, List.append_assoc]
  have hlen : ¬(itemPath collection uuid).length ≤ collectionPathPrefix.length := by
    show ¬(itemPath collection uuid).data.length ≤ collectionPathPrefix.data.length
    rw [hdata]
    simp
  have hdrop : (itemPath collection uuid).toList.drop collectionPathPrefix.length =
      collection.data ++ '/' :: uuid.data.map dashToUnderscore := by
    show (itemPath collection uuid).data.drop collectionPathPrefix.data.length = _
    rw [hdata, List.drop_left]
  have hslash : ∀ c ∈ collection.data, (fun c => (c ≠ '/' : Bool)) c = true :=
    collectionName_no_slash collection hcol
  have hdw : ((itemPath collection uuid).toList.drop
      collectionPathPrefix.length).dropWhile (fun c => (c ≠ '/' : Bool)) =
      '/' :: uuid.data.map dashToUnderscore := by
    rw [hdrop, dropWhile_append_of_all _ _ _ hslash, List.dropWhile_cons]
    rw [if_neg (by simp)]
  have htw : ((itemPath collection uuid).toList.drop
      collectionPathPrefix.length).takeWhile (fun c => (c ≠ '/' : Bool)) =
      collection.data := by
    rw [hdrop, takeWhile_append_of_all _ _ _ hslash, List.takeWhile_cons]
    rw [if_neg (by simp), List.append_nil]
  have hmap : (uuid.data.map dashToUnderscore).map underscoreToDash = uuid.data := by
    rw [List.map_map]
    have hpt : ∀ c ∈ uuid.data, (underscoreToDash ∘ dashToUnderscore) c = id c := by
      intro c hc
      rcases canonicalUUID_chars uuid huuid c hc with h1 | h1
      · rw [h1]; rfl
      · have hnd : c ≠ '-' := by
          intro heq; rw [heq] at h1; exact absurd h1 (by decide)
        have hnu : c ≠ '_' := canonicalUUID_no_underscore uuid huuid c hc
        show underscoreToDash (dashToUnderscore c) = c
        rw [show dashToUnderscore c = c from if_neg hnd]
        exact if_neg hnu
    rw [List.map_congr_left hpt, List.map_id]
  unfold itemUUIDFromPath
  rw [if_neg hlen, hdw]
  rw [if_neg (by simp)]
  rw [htw]
  show (collection, String.mk ((uuid.data.map dashToUnderscore).map underscoreToDash)) =
    (collection, uuid)
  rw [hmap]

/-- Witness for C9 at a concrete collection and canonical uuid. -/
theorem itemPath_roundtrip_witness :
    itemUUIDFromPath (itemPath "login" "123e4567-e89b-12d3-a456-426614174000") =
      ("login", "123e4567-e89b-12d3-a456-426614174000") :=
  itemPath_roundtrip "login" "123e4567-e89b-12d3-a456-426614174000"
    (by decide) (by decide)

/-! ## C5: the AES-128-CBC/PKCS#7 round trip -/

theorem xorBytes_length (a b : Bytes) : (xorBytes a b).length = min a.length b.length :=
  List.length_zipWith ..

theorem xorBytes_cancel : ∀ (a b : Bytes), a.length = b.length →
    xorBytes (xorBytes a b) b = a := by
  intro a
  induction a with
  | nil => intro b h; cases b <;> rfl
  | cons x xs ih =>
      intro b h
      cases b with
      | nil => simp at h
      | cons y ys =>
          show ((x ^^^ y) ^^^ y) :: xorBytes (xorBytes xs ys) ys = x :: xs
          rw [Nat.xor_cancel_right, ih ys (by simpa using h)]

theorem toBlocks_flatten : ∀ (n : Nat) (l : Bytes), l.length ≤ n →
    (toBlocks l).flatten = l := by
  intro n
  induction n with
  | zero =>
      intro l hl
      obtain rfl : l = [] := List.eq_nil_of_length_eq_zero (by omega)
      rw [toBlocks]
      simp
  | succ n ih =>
      intro l hl
      rw [toBlocks]
      by_cases he : l.isEmpty
      · rw [if_pos he]
        rw [List.isEmpty_iff] at he
        simp [he]
      · rw [if_neg he]
        rw [List.isEmpty_iff] at he
        have hpos : 0 < l.length := List.length_pos.mpr he
        rw [List.flatten_cons, ih (l.drop 16) (by simp; omega), List.take_append_drop]

theorem toBlocks_of_flatten : ∀ (bs : List Bytes), (∀ b ∈ bs, b.length = 16) →
    toBlocks bs.flatten = bs := by
  intro bs
  induction bs with
  | nil => intro _; rw [List.flatten_nil, toBlocks]; rfl
  | cons b tl ih =>
      intro h
      have hb : b.length = 16 := h b (by simp)
      rw [List.flatten_cons, toBlocks]
      rw [if_neg (by simp [List.isEmpty_iff]; intro hb0; rw [hb0] at hb; simp at hb)]
      rw [List.take_left' hb, List.drop_left' hb, ih (fun x hx => h x (by simp [hx]))]

theorem cbcEncryptBlocks_lengths (encB : Bytes → Bytes)
    (hlen : ∀ b : Bytes, b.length = 16 → (encB b).length = 16) :
    ∀ (bs : List Bytes) (prev : Bytes), (∀ b ∈ bs, b.length = 16) →
      prev.length = 16 → ∀ c ∈ cbcEncryptBlocks encB prev bs, c.length = 16 := by
  intro bs
  induction bs with
  | nil => intro prev _ _ c hc; simp [cbcEncryptBlocks] at hc
  | cons b tl ih =>
      intro prev hbs hprev c hc
      have hxor : (xorBytes b prev).length = 16 := by
        rw [xorBytes_length, hbs b (by simp), hprev]
        simp
      have henc : (encB (xorBytes b prev)).length = 16 := hlen _ hxor
      rw [cbcEncryptBlocks] at hc
      simp only [List.mem_cons] at hc
      rcases hc with rfl | hc
      · exact henc
      · exact ih _ (fun x hx => hbs x (by simp [hx])) henc c hc

theorem cbcEncryptBlocks_length_eq (encB : Bytes → Bytes) :
    ∀ (bs : List Bytes) (prev : Bytes),
      (cbcEncryptBlocks encB prev bs).length = bs.length := by
  intro bs
  induction bs with
  | nil => intro prev; rfl
  | cons b tl ih =>
      intro prev
      rw [cbcEncryptBlocks]
      simp only [List.length_cons, ih]

theorem cbc_decrypt_encrypt (encB decB : Bytes → Bytes)
    (hlen : ∀ b : Bytes, b.length = 16 → (encB b).length = 16)
    (hinv : ∀ b : Bytes, b.length = 16 → decB (encB b) = b) :
    ∀ (bs : List Bytes) (prev : Bytes), (∀ b ∈ bs, b.length = 16) →
      prev.length = 16 →
      cbcDecryptBlocks decB prev (cbcEncryptBlocks encB prev bs) = bs := by
  intro bs
  induction bs with
  | nil => intro prev _ _; rfl
  | cons b tl ih =>
      intro prev hbs hprev
      have hb : b.length = 16 := hbs b (by simp)
      have hxor : (xorBytes b prev).length = 16 := by
        rw [xorBytes_length, hb, hprev]; simp
      rw [cbcEncryptBlocks, cbcDecryptBlocks]
      rw [hinv _ hxor]
      rw [xorBytes_cancel b prev (by rw [hb, hprev])]
      rw [ih _ (fun x hx => hbs x (by simp [hx])) (hlen _ hxor)]

theorem flatten_length_of_blocks : ∀ (bs : List Bytes),
    (∀ b ∈ bs, b.length = 16) → bs.flatten.length = 16 * bs.length := by
  intro bs
  induction bs with
  | nil => intro _; rfl
  | cons b tl ih =>
      intro h
      rw [List.flatten_cons, List.length_append, h b (by simp),
        ih (fun x hx => h x (by simp [hx]))]
      simp only [List.length_cons]
      ring

theorem toBlocks_lengths : ∀ (n : Nat) (l : Bytes), l.length ≤ n →
    l.length % 16 = 0 → ∀ b ∈ toBlocks l, b.length = 16 := by
  intro n
  induction n with
  | zero =>
      intro l hl _ b hb
      obtain rfl : l = [] := List.eq_nil_of_length_eq_zero (by omega)
      rw [toBlocks] at hb
      simp at hb
  | succ n ih =>
      intro l hl hmod b hb
      rw [toBlocks] at hb
      by_cases he : l.isEmpty
      · rw [if_pos he] at hb
        simp at hb
      · rw [if_neg he] at hb
        rw [List.isEmpty_iff] at he
        have hpos : 0 < l.length := List.length_pos.mpr he
        have h16 : 16 ≤ l.length := by omega
        simp only [List.mem_cons] at hb
        rcases hb with rfl | hb
        · rw [List.length_take]
          omega
        · exact ih (l.drop 16) (by simp; omega) (by simp; omega) b hb

theorem getLastD_append_replicate (l : Bytes) (n a d : Nat) (h : 0 < n) :
    (l ++ List.replicate n a).getLastD d = a := by
  cases n with
  | zero => omega
  | succ m =>
      rw [List.replicate_succ', ← List.append_assoc, List.getLastD_concat]

theorem pkcs7_unpad_pad (d : Bytes) : pkcs7Unpad (pkcs7Pad d 16) = .ok d := by
  have hmod : d.length % 16 < 16 := Nat.mod_lt _ (by omega)
  have hp1 : 1 ≤ 16 - d.length % 16 := by omega
  have hlenpad : (pkcs7Pad d 16).length = d.length + (16 - d.length % 16) := by
    simp [pkcs7Pad]
  have hlast : (pkcs7Pad d 16).getLastD 0 = 16 - d.length % 16 :=
    getLastD_append_replicate d _ _ 0 hp1
  have hdrop : (pkcs7Pad d 16).drop ((pkcs7Pad d 16).length - (16 - d.length % 16)) =
      List.replicate (16 - d.length % 16) (16 - d.length % 16) := by
    rw [hlenpad, Nat.add_sub_cancel]
    unfold pkcs7Pad
    exact List.drop_left d _
  have htake : (pkcs7Pad d 16).take ((pkcs7Pad d 16).length - (16 - d.length % 16)) = d := by
    rw [hlenpad, Nat.add_sub_cancel]
    unfold pkcs7Pad
    exact List.take_left d _
  unfold pkcs7Unpad
  rw [if_neg (by omega)]
  rw [hlast]
  rw [if_neg (by unfold aesBlockSize; omega)]
  rw [hdrop, htake]
  rw [if_pos (by simp [List.all_eq_true, List.eq_of_mem_replicate])]

/-- Claim C5: for every block cipher pair satisfying the AES contract
(`decB` inverts `encB` on 16-byte blocks, `encB` preserves the block size —
which `crypto/aes` guarantees for every 16-byte key) and every 16-byte IV,
decrypting the `(iv, ciphertext)` pair produced by `aesEncrypt` under the
same key and IV returns exactly the plaintext. -/
theorem aes_cbc_pkcs7_roundtrip (encB decB : Bytes → Bytes) (iv S : Bytes)
    (hlen : ∀ b : Bytes, b.length = 16 → (encB b).length = 16)
    (hinv : ∀ b : Bytes, b.length = 16 → decB (encB b) = b)
    (hiv : iv.length = 16) :
    aesDecrypt decB iv (aesEncrypt encB iv S) = .ok S := by
  have hmod : S.length % 16 < 16 := Nat.mod_lt _ (by omega)
  have hpadlen : (pkcs7Pad S 16).length = S.length + (16 - S.length % 16) := by
    simp [pkcs7Pad]
  have hpadmod : (pkcs7Pad S 16).length % 16 = 0 := by omega
  have hpadpos : 0 < (pkcs7Pad S 16).length := by omega
  have hblocks : ∀ b ∈ toBlocks (pkcs7Pad S 16), b.length = 16 :=
    toBlocks_lengths (pkcs7Pad S 16).length _ le_rfl hpadmod
  have hctblocks : ∀ c ∈ cbcEncryptBlocks encB iv (toBlocks (pkcs7Pad S 16)),
      c.length = 16 :=
    cbcEncryptBlocks_lengths encB hlen _ iv hblocks hiv
  have hctlen : (cbcEncryptBlocks encB iv (toBlocks (pkcs7Pad S 16))).flatten.length =
      16 * (toBlocks (pkcs7Pad S 16)).length := by
    rw [flatten_length_of_blocks _ hctblocks, cbcEncryptBlocks_length_eq]
  have hblkpos : 0 < (toBlocks (pkcs7Pad S 16)).length := by
    rw [toBlocks]
    rw [if_neg (by simp [List.isEmpty_iff, ← List.length_pos]; omega)]
    simp
  simp only [aesEncrypt, aesDecrypt, aesBlockSize]
  rw [if_neg (by rw [hctlen]; push_neg; constructor <;> omega)]
  rw [toBlocks_of_flatten _ hctblocks]
  rw [cbc_decrypt_encrypt encB decB hlen hinv _ iv hblocks hiv]
  rw [toBlocks_flatten (pkcs7Pad S 16).length _ le_rfl]
  exact pkcs7_unpad_pad S

/-- Witness for C5: the identity block cipher (which satisfies the contract),
the zero IV and a short plaintext. -/
theorem aes_cbc_pkcs7_roundtrip_witness :
    aesDecrypt (fun b => b) (List.replicate 16 0)
      (aesEncrypt (fun b => b) (List.replicate 16 0) [1, 2, 3]) = .ok [1, 2, 3] :=
  aes_cbc_pkcs7_roundtrip (fun b => b) (fun b => b) (List.replicate 16 0) [1, 2, 3]
    (fun _ h => h) (fun _ _ => rfl) (by simp)

end WslSecretService
